/-
Verification of `causalml/propensity.py`.

Shallow embedding conventions:
* numpy float64 values are modelled as exact rationals (`ℚ`); the machine
  epsilon `np.finfo(float).eps` is the rational `2⁻⁵²`, and the float literal
  `1.001` is the rational `1001/1000` (float rounding is abstracted away).
* a feature matrix is `List (List ℚ)`; 1-d arrays are `List ℚ`.
* a fitted scikit-learn / xgboost classifier is abstracted by its
  `predict_proba` behaviour (`Classifier`): the claims quantify over every
  possible fitted classifier, which models "after fit(X, y)" for all (X, y).
* Python duck typing in `compute_propensity_score` (a model that may or may
  not have a `predict_proba` attribute) is an `Option` field in `PModel`;
  the `except AttributeError` handler is the `none` branch.
* `logger.info` calls are modelled by accumulating the message strings, so
  that which branch was taken is observable in the result.
-/
import Mathlib

namespace Propensity

/-- `np.finfo(float).eps` for IEEE-754 double precision. -/
def eps : ℚ := 1 / 2 ^ 52

/-- `np.clip(x, lo, hi)`: clip below at `lo`, then above at `hi`. -/
def npClip (lo hi x : ℚ) : ℚ := min (max x lo) hi

/-- A fitted binary classifier, abstracted by its probability output:
`predict_proba(X)` returns one row `(p₀, p₁)` of class probabilities per
input row. -/
structure Classifier where
  predict_proba : List (List ℚ) → List (ℚ × ℚ)

/-- `PropensityModel.predict` (propensity.py lines 44-54):
`np.clip(self.model.predict_proba(X)[:, 1], *self.clip_bounds)`. -/
def PropensityModel.predict (clip_bounds : ℚ × ℚ) (model : Classifier)
    (X : List (List ℚ)) : List ℚ :=
  (model.predict_proba X).map (fun row => npClip clip_bounds.1 clip_bounds.2 row.2)

/-- `GradientBoostedPropensityModel.predict` (lines 162-178): if
`early_stop`, return `np.clip(self.model.predict_proba(X)[:, 1],
*self.clip_bounds)`; else delegate to the base-class `predict`. -/
def GradientBoostedPropensityModel.predict (early_stop : Bool)
    (clip_bounds : ℚ × ℚ) (model : Classifier) (X : List (List ℚ)) : List ℚ :=
  if early_stop then
    (model.predict_proba X).map (fun row => npClip clip_bounds.1 clip_bounds.2 row.2)
  else
    PropensityModel.predict clip_bounds model X

/-- The default `clip_bounds=(1e-3, 1 - 1e-3)` of `PropensityModel.__init__`. -/
def defaultClipBounds : ℚ × ℚ := (1 / 1000, 1 - 1 / 1000)

/-!  ### Keyword-argument dictionaries

`LogisticRegressionPropensityModel._model` (lines 78-98) builds a Python dict
of keyword arguments and passes it to `LogisticRegressionCV`.  Dict values
are modelled by `PyVal`; the two numpy grid expressions and the
`StratifiedKFold(...)` object are kept symbolic, as the expressions the code
writes. -/

/-- A Python value stored in a keyword-argument dict. -/
inductive PyVal where
  /-- an int -/
  | nat : Nat → PyVal
  /-- a float -/
  | rat : ℚ → PyVal
  /-- a string -/
  | str : String → PyVal
  /-- a bool -/
  | bool : Bool → PyVal
  /-- `np.logspace(lo, hi, num)` -/
  | logspace : ℚ → ℚ → Nat → PyVal
  /-- `np.linspace(lo, hi, num)` -/
  | linspace : ℚ → ℚ → Nat → PyVal
  /-- `StratifiedKFold(n_splits=·, shuffle=·, random_state=·)` -/
  | skf : PyVal → Bool → PyVal → PyVal
  deriving DecidableEq

/-- A Python keyword dict: an association list (keys distinct in practice,
since it comes from `**kwargs`). -/
abbrev Kwargs : Type := List (String × PyVal)

/-- `d1.update(d2)`: keys already in `d1` keep their position but take the
value from `d2`; keys only in `d2` are appended. -/
def dictUpdate (d1 d2 : Kwargs) : Kwargs :=
  d1.map (fun kv => (kv.1, (List.lookup kv.1 d2).getD kv.2)) ++
    d2.filter (fun kv => (List.lookup kv.1 d1).isNone)

/-- The dict literal built by `LogisticRegressionPropensityModel._model`
(lines 80-95): the `cv` entry consumes `n_fold` (default 4) by `pop` and
reads `random_state` (default 42) by `get` from `self.model_kwargs`. -/
def lrKwargsDefault (model_kwargs : Kwargs) : Kwargs :=
  [("penalty", PyVal.str "elasticnet"),
   ("solver", PyVal.str "saga"),
   ("Cs", PyVal.logspace (1 / 1000) (1 - 1 / 1000) 4),
   ("l1_ratios", PyVal.linspace (1 / 1000) (1 - 1 / 1000) 4),
   ("cv", PyVal.skf ((List.lookup "n_fold" model_kwargs).getD (PyVal.nat 4)) true
      ((List.lookup "random_state" model_kwargs).getD (PyVal.nat 42))),
   ("random_state", PyVal.nat 42)]

/-- The full keyword dict passed to `LogisticRegressionCV`:
`kwargs.update(self.model_kwargs)` after `n_fold` was popped out of
`self.model_kwargs` while the literal was built. -/
def LogisticRegressionPropensityModel.modelKwargs (opts : Kwargs) : Kwargs :=
  dictUpdate (lrKwargsDefault opts) (opts.filter (fun kv => kv.1 != "n_fold"))

/-- `class ElasticNetPropensityModel(LogisticRegressionPropensityModel): pass`
(lines 101-102): the subclass body is empty, so `_model` is inherited
verbatim. -/
def ElasticNetPropensityModel.modelKwargs (opts : Kwargs) : Kwargs :=
  LogisticRegressionPropensityModel.modelKwargs opts

/-- `LogisticRegressionPropensityModel.predict`, inherited from the base
class: the underlying classifier is whatever training semantics `sem`
(abstracting `LogisticRegressionCV(**kwargs).fit(X, y)`) produces from the
keyword configuration and the data. -/
def LogisticRegressionPropensityModel.predictOn
    (sem : Kwargs → List (List ℚ) → List ℚ → Classifier)
    (clip_bounds : ℚ × ℚ) (opts : Kwargs) (X : List (List ℚ)) (y : List ℚ)
    (Xp : List (List ℚ)) : List ℚ :=
  PropensityModel.predict clip_bounds
    (sem (LogisticRegressionPropensityModel.modelKwargs opts) X y) Xp

/-- `ElasticNetPropensityModel.predict`: inherited unchanged through the
empty subclass body. -/
def ElasticNetPropensityModel.predictOn
    (sem : Kwargs → List (List ℚ) → List ℚ → Classifier)
    (clip_bounds : ℚ × ℚ) (opts : Kwargs) (X : List (List ℚ)) (y : List ℚ)
    (Xp : List (List ℚ)) : List ℚ :=
  LogisticRegressionPropensityModel.predictOn sem clip_bounds opts X y Xp

/-!  ### `calibrate` (lines 181-198)

`calibrate(ps, treatment)` runs
`IsotonicRegression(out_of_bounds="clip", y_min=2ε, y_max=1-2ε)
   .fit_transform(ps, treatment)`.
scikit-learn's isotonic fit (a) averages the targets over duplicate x
values (weights = multiplicities), (b) runs the pool-adjacent-violators
algorithm over the distinct x values in increasing order, and (c) clips the
fitted values into `[y_min, y_max]`; `fit_transform` then returns the fitted
value at each training x.  The embedding below follows those steps. -/

/-- `2.0 * np.finfo(float).eps`, the `y_min` of the isotonic regression. -/
def twoEps : ℚ := 2 * eps

/-- A PAVA block: the pooled target `sum`, total weight `w`, and the number
`n` of distinct x points pooled into the block. -/
structure Block where
  sum : ℚ
  w : ℚ
  n : Nat
  deriving DecidableEq

/-- The pooled (weighted mean) value of a block. -/
def Block.mean (b : Block) : ℚ := b.sum / b.w

/-- Pool two adjacent blocks. -/
def Block.merge (a b : Block) : Block := ⟨a.sum + b.sum, a.w + b.w, a.n + b.n⟩

/-- One PAVA step: push block `b` onto the stack (head = rightmost block),
merging while it violates monotonicity against the block below. -/
def pavaStep : List Block → Block → List Block
  | [], b => [b]
  | top :: rest, b =>
      if b.mean < top.mean then pavaStep rest (top.merge b) else b :: top :: rest

/-- Run PAVA over the blocks listed in increasing-x order. -/
def pavaRun (bs : List Block) : List Block := bs.foldl pavaStep []

/-- Read the fitted value at each distinct x back off the stack: the
bottom-most (leftmost) block first, each block contributing its mean once
per pooled point. -/
def expandStack (s : List Block) : List ℚ :=
  (s.reverse.map (fun b => List.replicate b.n b.mean)).flatten

/-- Total number of pooled points on a stack of blocks. -/
def nsum (s : List Block) : Nat := (s.map Block.n).sum

/-- Insert a value into a strictly increasing list, keeping it strictly
increasing (duplicates are dropped). -/
def insertDistinct (x : ℚ) : List ℚ → List ℚ
  | [] => [x]
  | y :: ys =>
      if x < y then x :: y :: ys
      else if x = y then y :: ys
      else y :: insertDistinct x ys

/-- The distinct values of `ps` in increasing order (scikit-learn sorts the
training x and averages duplicates). -/
def sortedXs (ps : List ℚ) : List ℚ := ps.foldr insertDistinct []

/-- The initial block of one distinct x value: target sum and multiplicity
of the training points at that x. -/
def groupBlock (pairs : List (ℚ × ℚ)) (x : ℚ) : Block :=
  let sel := pairs.filter (fun pt => pt.1 == x)
  ⟨((sel.map Prod.snd).sum : ℚ), (sel.length : ℚ), 1⟩

/-- The fitted isotonic table: each distinct x of `ps` paired with its
fitted value, clipped into `[y_min, y_max] = [2ε, 1-2ε]`. -/
def isotonicFitted (ps ts : List ℚ) : List (ℚ × ℚ) :=
  let xs := sortedXs ps
  let blocks := xs.map (groupBlock (ps.zip ts))
  let fitted := (expandStack (pavaRun blocks)).map (npClip twoEps (1 - twoEps))
  xs.zip fitted

/-- `calibrate(ps, treatment)`: the fitted isotonic value at each input
score. -/
def calibrate (ps treatment : List ℚ) : List ℚ :=
  let tbl := isotonicFitted ps treatment
  ps.map (fun x => (List.lookup x tbl).getD 0)

/-!  ### `compute_propensity_score` (lines 201-244) -/

/-- A duck-typed binary classifier as `compute_propensity_score` sees it
after `p_model.fit(X, treatment)`: it may or may not have a `predict_proba`
attribute (accessing a missing one raises `AttributeError`), and it has a
`predict` method.  The structure captures the (fitted) model's prediction
behaviour; `fit` mutates the model in place in Python and preserves object
identity, so it is folded into the quantification over `PModel`. -/
structure PModel where
  predict_proba : Option (List (List ℚ) → List (ℚ × ℚ))
  predict : List (List ℚ) → List ℚ

/-- The wrapper `ElasticNetPropensityModel()` as a duck-typed model: the
wrapper class itself defines `predict` (clipping the inner classifier's
probabilities to the default bounds) but exposes no `predict_proba`
attribute of its own. -/
def elasticNetDuck (fitted : Classifier) : PModel :=
  { predict_proba := none
    predict := PropensityModel.predict defaultClipBounds fitted }

/-- The diagnostic message logged by the `except AttributeError` handler
(line 231). -/
def fallbackMsg : String := "predict_proba not available, using predict instead"

/-- The message logged when calibrating (line 235). -/
def calibrateMsg : String := "Calibrating propensity scores. Returning p_model=None."

/-- Lines 228-232: `try: p = p_model.predict_proba(X_pred)[:, 1]
except AttributeError: logger.info(...); p = p_model.predict(X_pred)`.
Returns the raw scores and the log messages emitted. -/
def predictStep (m : PModel) (X_pred : List (List ℚ)) : List ℚ × List String :=
  match m.predict_proba with
  | some f => ((f X_pred).map Prod.snd, [])
  | none => (m.predict X_pred, [fallbackMsg])

/-- Lines 239-242: `p = np.where(p < 0 + eps, 0 + eps * 1.001, p)` then
`p = np.where(p > 1 - eps, 1 - eps * 1.001, p)`. -/
def finalClamp (p : List ℚ) : List ℚ :=
  (p.map (fun x => if x < 0 + eps then 0 + eps * (1001 / 1000) else x)).map
    (fun x => if x > 1 - eps then 1 - eps * (1001 / 1000) else x)

/-- `compute_propensity_score(X, treatment, p_model, X_pred, treatment_pred,
calibrate_p)` (lines 201-244).  `lrFit` abstracts the training of the
default model's inner `LogisticRegressionCV` on `(X, treatment)`; a supplied
`p_model` is taken post-`fit` (see `PModel`).  Returns
`(p, p_model, log messages)`. -/
def compute_propensity_score (lrFit : List (List ℚ) → List ℚ → Classifier)
    (X : List (List ℚ)) (treatment : List ℚ)
    (p_model : Option PModel) (X_pred : Option (List (List ℚ)))
    (treatment_pred : Option (List ℚ)) (calibrate_p : Bool) :
    List ℚ × Option PModel × List String :=
  let treatment_pred := treatment_pred.getD treatment
  let p_model := p_model.getD (elasticNetDuck (lrFit X treatment))
  let X_pred := X_pred.getD X
  let pl := predictStep p_model X_pred
  let p := if calibrate_p then calibrate pl.1 treatment_pred else pl.1
  let p_model_out : Option PModel := if calibrate_p then none else some p_model
  let logs := if calibrate_p then pl.2 ++ [calibrateMsg] else pl.2
  (finalClamp p, p_model_out, logs)

/-!  ## Helper lemmas -/

theorem eps_pos : (0 : ℚ) < eps := by norm_num [eps]

theorem eps_nudge_lt : eps * (1001 / 1000) < 1 - eps := by norm_num [eps]

/-- Every element of `finalClamp p` lies strictly inside `(0, 1)`. -/
theorem mem_finalClamp {p : List ℚ} {v : ℚ} (hv : v ∈ finalClamp p) :
    0 < v ∧ v < 1 := by
  simp only [finalClamp, List.map_map, List.mem_map, Function.comp] at hv
  obtain ⟨x, -, rfl⟩ := hv
  have h1 := eps_pos
  have h2 := eps_nudge_lt
  constructor <;> split_ifs with ha hb <;> linarith

/-- `npClip lo hi` lands in `[lo, hi]` when `lo ≤ hi`. -/
theorem npClip_mem_Icc {lo hi : ℚ} (h : lo ≤ hi) (x : ℚ) :
    lo ≤ npClip lo hi x ∧ npClip lo hi x ≤ hi := by
  unfold npClip
  constructor
  · exact le_min (le_max_right x lo) h
  · exact min_le_right _ _

/-- Every element of `PropensityModel.predict` lies in the clip interval. -/
theorem mem_predict_Icc {cb : ℚ × ℚ} (h : cb.1 ≤ cb.2) {model : Classifier}
    {X : List (List ℚ)} {v : ℚ} (hv : v ∈ PropensityModel.predict cb model X) :
    cb.1 ≤ v ∧ v ≤ cb.2 := by
  simp only [PropensityModel.predict, List.mem_map] at hv
  obtain ⟨row, -, rfl⟩ := hv
  exact npClip_mem_Icc h _

/-!  ## Claims C1, C2, C3 -/

/-- C1: every entry of the score array returned by
`compute_propensity_score` lies strictly inside `(0, 1)`: the final clamp
nudges any entry below `eps` up to `eps * 1.001` and any entry above
`1 - eps` down to `1 - eps * 1.001`, on the calibration path and the
fallback path alike. -/
theorem compute_propensity_score_strict_unit
    (lrFit : List (List ℚ) → List ℚ → Classifier) (X : List (List ℚ))
    (treatment : List ℚ) (p_model : Option PModel)
    (X_pred : Option (List (List ℚ))) (treatment_pred : Option (List ℚ))
    (calibrate_p : Bool) {v : ℚ}
    (hv : v ∈ (compute_propensity_score lrFit X treatment p_model X_pred
      treatment_pred calibrate_p).1) :
    0 < v ∧ v < 1 := by
  simp only [compute_propensity_score] at hv
  exact mem_finalClamp hv

/-- Witness for C1 at a concrete input. -/
theorem compute_propensity_score_strict_unit_witness :
    (1 / 2 : ℚ) ∈ (compute_propensity_score
      (fun _ _ => ⟨fun X => X.map (fun _ => (1 / 2, 1 / 2))⟩)
      [[1]] [1] none none none false).1 ∧
    (0 < (1 / 2 : ℚ) ∧ (1 / 2 : ℚ) < 1) := by
  have hmem : (1 / 2 : ℚ) ∈ (compute_propensity_score
      (fun _ _ => ⟨fun X => X.map (fun _ => (1 / 2, 1 / 2))⟩)
      [[1]] [1] none none none false).1 := by
    norm_num [compute_propensity_score, predictStep, elasticNetDuck,
      PropensityModel.predict, defaultClipBounds, npClip, finalClamp, eps]
  exact ⟨hmem, compute_propensity_score_strict_unit _ _ _ _ _ _ _ hmem⟩

/-- C2: with `calibrate_p=True`, `compute_propensity_score` always returns
`None` as the second element of its result tuple. -/
theorem compute_propensity_score_calibrate_none
    (lrFit : List (List ℚ) → List ℚ → Classifier) (X : List (List ℚ))
    (treatment : List ℚ) (p_model : Option PModel)
    (X_pred : Option (List (List ℚ))) (treatment_pred : Option (List ℚ))
    {calibrate_p : Bool} (hc : calibrate_p = true) :
    (compute_propensity_score lrFit X treatment p_model X_pred
      treatment_pred calibrate_p).2.1 = none := by
  subst hc
  simp [compute_propensity_score]

/-- Witness for C2 at a concrete input. -/
theorem compute_propensity_score_calibrate_none_witness :
    (compute_propensity_score (fun _ _ => ⟨fun X => X.map (fun _ => (0, 1))⟩)
      [[1]] [1] none none none true).2.1 = none :=
  compute_propensity_score_calibrate_none _ _ _ _ _ _ rfl

/-- C3: with `calibrate_p=False` and a caller-supplied `p_model`,
`compute_propensity_score` returns that same model as the second element of
its result tuple. -/
theorem compute_propensity_score_same_model
    (lrFit : List (List ℚ) → List ℚ → Classifier) (X : List (List ℚ))
    (treatment : List ℚ) {p_model : Option PModel} {m : PModel}
    (X_pred : Option (List (List ℚ))) (treatment_pred : Option (List ℚ))
    {calibrate_p : Bool} (hm : p_model = some m) (hc : calibrate_p = false) :
    (compute_propensity_score lrFit X treatment p_model X_pred
      treatment_pred calibrate_p).2.1 = some m := by
  subst hm; subst hc
  simp [compute_propensity_score]

/-- Witness for C3 at a concrete input. -/
theorem compute_propensity_score_same_model_witness :
    (compute_propensity_score (fun _ _ => ⟨fun X => X.map (fun _ => (0, 1))⟩)
      [[1]] [1] (some ⟨none, fun X => X.map (fun _ => 1)⟩) none none false).2.1 =
      some ⟨none, fun X => X.map (fun _ => 1)⟩ :=
  compute_propensity_score_same_model _ _ _ _ _ rfl rfl

/-!  ## Claim C4

`PropensityModel.predict` uses `np.clip`, whose bounds are inclusive: a
raw probability at or below the lower bound comes out exactly equal to the
lower bound, so membership in `clip_bounds` is not strict. -/

/-- C4 counterexample: a fitted classifier whose positive-class probability
is `0` makes `predict` return exactly the lower clip bound, which is not
strictly greater than the lower bound. -/
theorem predict_strict_bounds_cex :
    ¬ (∀ v ∈ PropensityModel.predict defaultClipBounds
        ⟨fun X => X.map (fun _ => (1, 0))⟩ [[0]],
        defaultClipBounds.1 < v ∧ v < defaultClipBounds.2) := by
  intro h
  have hmem : (1 / 1000 : ℚ) ∈ PropensityModel.predict defaultClipBounds
      ⟨fun X => X.map (fun _ => (1, 0))⟩ [[0]] := by
    norm_num [PropensityModel.predict, defaultClipBounds, npClip]
  exact absurd (h _ hmem).1 (lt_irrefl _)

/-- C4 amended: after `fit`, every value of `predict(X)` lies within the
configured `clip_bounds` inclusively (at least the lower bound and at most
the upper bound), for any fitted classifier. -/
theorem predict_mem_clip_bounds {cb : ℚ × ℚ} (h : cb.1 ≤ cb.2)
    (model : Classifier) (X : List (List ℚ)) :
    ∀ v ∈ PropensityModel.predict cb model X, cb.1 ≤ v ∧ v ≤ cb.2 :=
  fun _ hv => mem_predict_Icc h hv

/-- Witness for the amended C4 at a concrete input. -/
theorem predict_mem_clip_bounds_witness :
    (defaultClipBounds.1 ≤ defaultClipBounds.2) ∧
    ∀ v ∈ PropensityModel.predict defaultClipBounds
      ⟨fun X => X.map (fun _ => (0, 1))⟩ [[5]], defaultClipBounds.1 ≤ v ∧ v ≤ defaultClipBounds.2 :=
  ⟨by norm_num [defaultClipBounds],
   predict_mem_clip_bounds (by norm_num [defaultClipBounds]) _ _⟩

/-- C6: `ElasticNetPropensityModel` is behaviourally identical to
`LogisticRegressionPropensityModel`: for every construction argument list it
builds the same classifier configuration, and for every training semantics,
clip bounds and data, prediction coincides. -/
theorem elasticNet_is_logisticRegression :
    (∀ opts : Kwargs, ElasticNetPropensityModel.modelKwargs opts =
        LogisticRegressionPropensityModel.modelKwargs opts) ∧
    (∀ (sem : Kwargs → List (List ℚ) → List ℚ → Classifier) (cb : ℚ × ℚ)
        (opts : Kwargs) (X : List (List ℚ)) (y : List ℚ) (Xp : List (List ℚ)),
        ElasticNetPropensityModel.predictOn sem cb opts X y Xp =
          LogisticRegressionPropensityModel.predictOn sem cb opts X y Xp) :=
  ⟨fun _ => rfl, fun _ _ _ _ _ _ => rfl⟩

/-- C7: `GradientBoostedPropensityModel.predict` with `early_stop=True`
computes exactly the base-class `predict` expression: the two branches are
extensionally equal given the same fitted underlying model. -/
theorem gbm_predict_early_stop_eq_base (cb : ℚ × ℚ) (model : Classifier)
    (X : List (List ℚ)) :
    GradientBoostedPropensityModel.predict true cb model X =
      PropensityModel.predict cb model X := rfl

/-- C8: `compute_propensity_score` tries `predict_proba` first; the fallback
(logging a diagnostic and calling `predict`) runs exactly when the model has
no `predict_proba` attribute, and either way the call returns normally (the
embedding is a total function).  The diagnostic message appears in the log
iff the attribute is missing, and the raw scores come from `predict` in that
case and from `predict_proba`'s positive-class column otherwise. -/
theorem compute_propensity_score_fallback_iff
    (lrFit : List (List ℚ) → List ℚ → Classifier) (X : List (List ℚ))
    (treatment : List ℚ) (m : PModel) (X_pred : Option (List (List ℚ)))
    (treatment_pred : Option (List ℚ)) (calibrate_p : Bool) :
    (fallbackMsg ∈ (compute_propensity_score lrFit X treatment (some m) X_pred
        treatment_pred calibrate_p).2.2 ↔ m.predict_proba = none) ∧
    (m.predict_proba = none →
      (predictStep m (X_pred.getD X)).1 = m.predict (X_pred.getD X) ∧
      (predictStep m (X_pred.getD X)).2 = [fallbackMsg]) ∧
    (∀ f, m.predict_proba = some f →
      (predictStep m (X_pred.getD X)).1 = (f (X_pred.getD X)).map Prod.snd ∧
      (predictStep m (X_pred.getD X)).2 = []) := by
  have hne : fallbackMsg ≠ calibrateMsg := by decide
  cases hpp : m.predict_proba with
  | none =>
      cases calibrate_p <;>
        simp [compute_propensity_score, predictStep, hpp, hne]
  | some f =>
      cases calibrate_p <;>
        simp [compute_propensity_score, predictStep, hpp, hne]

/-- Witness for C8 at a concrete input. -/
theorem compute_propensity_score_fallback_iff_witness :
    (fallbackMsg ∈ (compute_propensity_score
        (fun _ _ => ⟨fun X => X.map (fun _ => (0, 1))⟩) [[1]] [1]
        (some ⟨none, fun X => X.map (fun _ => 1)⟩) none none false).2.2 ↔
      (⟨none, fun X => X.map (fun _ => 1)⟩ : PModel).predict_proba = none) ∧
    ((predictStep ⟨none, fun X => X.map (fun _ => 1)⟩ [[1]]).1 =
      (⟨none, fun X => X.map (fun _ => 1)⟩ : PModel).predict [[1]] ∧
      (predictStep ⟨none, fun X => X.map (fun _ => 1)⟩ [[1]]).2 = [fallbackMsg]) := by
  have h := compute_propensity_score_fallback_iff
    (fun _ _ => ⟨fun X => X.map (fun _ => (0, 1))⟩) [[1]] [1]
    ⟨none, fun X => X.map (fun _ => 1)⟩ none none false
  exact ⟨h.1, h.2.1 rfl⟩

/-- C10: with `p_model=None`, the default `ElasticNetPropensityModel`
wrapper has no `predict_proba` attribute, so the fallback branch always
runs (the diagnostic is logged), and the scores it yields are the clipped
probabilities of `PropensityModel.predict`, bounded by the default
`clip_bounds (1e-3, 1 - 1e-3)` — not hard 0/1 labels. -/
theorem compute_propensity_score_default_fallback
    (lrFit : List (List ℚ) → List ℚ → Classifier) (X : List (List ℚ))
    (treatment : List ℚ) (X_pred : Option (List (List ℚ)))
    (treatment_pred : Option (List ℚ)) (calibrate_p : Bool) :
    fallbackMsg ∈ (compute_propensity_score lrFit X treatment none X_pred
        treatment_pred calibrate_p).2.2 ∧
    (predictStep (elasticNetDuck (lrFit X treatment)) (X_pred.getD X)).1 =
      PropensityModel.predict defaultClipBounds (lrFit X treatment)
        (X_pred.getD X) ∧
    ∀ v ∈ (predictStep (elasticNetDuck (lrFit X treatment)) (X_pred.getD X)).1,
      defaultClipBounds.1 ≤ v ∧ v ≤ defaultClipBounds.2 := by
  refine ⟨?_, rfl, ?_⟩
  · cases calibrate_p <;>
      simp [compute_propensity_score, predictStep, elasticNetDuck]
  · intro v hv
    exact mem_predict_Icc (by norm_num [defaultClipBounds]) hv

/-- Witness for C10 at a concrete input. -/
theorem compute_propensity_score_default_fallback_witness :
    fallbackMsg ∈ (compute_propensity_score
        (fun _ _ => ⟨fun X => X.map (fun _ => (1 / 2, 1 / 2))⟩)
        [[1]] [1] none none none false).2.2 ∧
    (1 / 2 : ℚ) ∈ (predictStep (elasticNetDuck
        ((fun (_ : List (List ℚ)) (_ : List ℚ) =>
          (⟨fun X => X.map (fun _ => (1 / 2, 1 / 2))⟩ : Classifier)) [[1]] [1]))
        [[1]]).1 ∧
    defaultClipBounds.1 ≤ (1 / 2 : ℚ) ∧ (1 / 2 : ℚ) ≤ defaultClipBounds.2 := by
  have h := compute_propensity_score_default_fallback
    (fun _ _ => ⟨fun X => X.map (fun _ => (1 / 2, 1 / 2))⟩) [[1]] [1] none none false
  refine ⟨h.1, ?_, ?_⟩
  · norm_num [predictStep, elasticNetDuck, PropensityModel.predict,
      defaultClipBounds, npClip]
  · exact h.2.2 _ (by norm_num [predictStep, elasticNetDuck,
      PropensityModel.predict, defaultClipBounds, npClip])

/-!  ## Association-list lemmas for the keyword dicts -/

theorem kwLookup_cons_eq (k : String) (v : PyVal) (l : Kwargs) :
    List.lookup k ((k, v) :: l) = some v := by
  simp [List.lookup_cons]

theorem kwLookup_cons_ne {k k' : String} (h : k ≠ k') (v : PyVal) (l : Kwargs) :
    List.lookup k ((k', v) :: l) = List.lookup k l := by
  simp [List.lookup_cons, beq_false_of_ne h]

theorem kwLookup_append (k : String) (l1 l2 : Kwargs) :
    List.lookup k (l1 ++ l2) =
      (List.lookup k l1).orElse (fun _ => List.lookup k l2) := by
  induction l1 with
  | nil => simp
  | cons kv rest ih =>
      obtain ⟨k1, v1⟩ := kv
      by_cases h : k = k1
      · subst h
        simp [kwLookup_cons_eq]
      · rw [List.cons_append, kwLookup_cons_ne h, kwLookup_cons_ne h, ih]

theorem kwLookup_map_val (k : String) (g : String → PyVal → PyVal) (l : Kwargs) :
    List.lookup k (l.map (fun kv => (kv.1, g kv.1 kv.2))) =
      (List.lookup k l).map (g k) := by
  induction l with
  | nil => simp
  | cons kv rest ih =>
      obtain ⟨k1, v1⟩ := kv
      by_cases h : k = k1
      · subst h
        simp [kwLookup_cons_eq]
      · simpa [kwLookup_cons_ne h] using ih

theorem kwLookup_filter_keeps {k : String} {p : String × PyVal → Bool}
    (hp : ∀ v, p (k, v) = true) (l : Kwargs) :
    List.lookup k (l.filter p) = List.lookup k l := by
  induction l with
  | nil => simp
  | cons kv rest ih =>
      obtain ⟨k1, v1⟩ := kv
      by_cases h : k = k1
      · subst h
        rw [List.filter_cons, hp v1]
        simp [kwLookup_cons_eq]
      · rw [List.filter_cons]
        cases hpk : p (k1, v1)
        · simpa [kwLookup_cons_ne h] using ih
        · simpa [kwLookup_cons_ne h] using ih

theorem kwLookup_eq_none_of_keys {k : String} {l : Kwargs}
    (h : ∀ kv ∈ l, kv.1 ≠ k) : List.lookup k l = none := by
  induction l with
  | nil => simp
  | cons kv rest ih =>
      obtain ⟨k1, v1⟩ := kv
      have hk : k ≠ k1 := fun he => h (k1, v1) (List.mem_cons_self _ _) (he ▸ rfl)
      rw [kwLookup_cons_ne hk]
      exact ih fun kv hkv => h kv (List.mem_cons_of_mem _ hkv)

theorem kwLookup_dictUpdate_of_some {k : String} {d1 : Kwargs} (d2 : Kwargs)
    {v0 : PyVal} (h1 : List.lookup k d1 = some v0) :
    List.lookup k (dictUpdate d1 d2) = some ((List.lookup k d2).getD v0) := by
  unfold dictUpdate
  rw [kwLookup_append, kwLookup_map_val k (fun k1 v1 => (List.lookup k1 d2).getD v1),
    h1]
  rfl

theorem kwLookup_dictUpdate_of_none {k : String} {d1 : Kwargs} (d2 : Kwargs)
    (h1 : List.lookup k d1 = none) :
    List.lookup k (dictUpdate d1 d2) =
      List.lookup k (d2.filter (fun kv => (List.lookup kv.1 d1).isNone)) := by
  unfold dictUpdate
  rw [kwLookup_append, kwLookup_map_val k (fun k1 v1 => (List.lookup k1 d2).getD v1),
    h1]
  rfl

/-- C9: the classifier configuration built by
`LogisticRegressionPropensityModel._model` (and so by its `ElasticNet`
alias): the stratified CV object uses the popped `n_fold` option (default
4) as `n_splits`; `n_fold` itself is consumed and not forwarded to the
classifier; every other supplied option takes precedence over the
defaults. -/
theorem lr_modelKwargs_n_fold (opts : Kwargs)
    (hcv : List.lookup "cv" opts = none) :
    List.lookup "cv" (LogisticRegressionPropensityModel.modelKwargs opts) =
      some (PyVal.skf ((List.lookup "n_fold" opts).getD (PyVal.nat 4)) true
        ((List.lookup "random_state" opts).getD (PyVal.nat 42))) ∧
    List.lookup "n_fold" (LogisticRegressionPropensityModel.modelKwargs opts) =
      none ∧
    (∀ k v, k ≠ "n_fold" → List.lookup k opts = some v →
      List.lookup k (LogisticRegressionPropensityModel.modelKwargs opts) =
        some v) := by
  have hfilter : ∀ (k : String), k ≠ "n_fold" →
      List.lookup k (opts.filter (fun kv => kv.1 != "n_fold")) =
        List.lookup k opts := by
    intro k hk
    exact kwLookup_filter_keeps (fun v => by simp [bne_iff_ne, hk]) opts
  refine ⟨?_, ?_, ?_⟩
  · have h1 : List.lookup "cv" (lrKwargsDefault opts) =
        some (PyVal.skf ((List.lookup "n_fold" opts).getD (PyVal.nat 4)) true
          ((List.lookup "random_state" opts).getD (PyVal.nat 42))) := by
      simp [lrKwargsDefault, List.lookup]
    rw [LogisticRegressionPropensityModel.modelKwargs,
      kwLookup_dictUpdate_of_some _ h1, hfilter "cv" (by decide), hcv]
    rfl
  · have h1 : List.lookup "n_fold" (lrKwargsDefault opts) = none := by
      simp [lrKwargsDefault, List.lookup]
    rw [LogisticRegressionPropensityModel.modelKwargs,
      kwLookup_dictUpdate_of_none _ h1]
    refine kwLookup_eq_none_of_keys fun kv hkv => ?_
    have hkv2 := (List.mem_filter.mp hkv).1
    have := (List.mem_filter.mp hkv2).2
    simpa [bne_iff_ne] using this
  · intro k v hk hv
    rw [LogisticRegressionPropensityModel.modelKwargs]
    cases h1 : List.lookup k (lrKwargsDefault opts) with
    | some v0 =>
        rw [kwLookup_dictUpdate_of_some _ h1, hfilter k hk, hv]
        rfl
    | none =>
        rw [kwLookup_dictUpdate_of_none _ h1,
          kwLookup_filter_keeps (fun w => by simp [h1]), hfilter k hk, hv]

/-- Witness for C9 at a concrete options dict. -/
theorem lr_modelKwargs_n_fold_witness :
    (List.lookup "cv" ([("n_fold", PyVal.nat 7)] : Kwargs) = none) ∧
    List.lookup "cv"
        (LogisticRegressionPropensityModel.modelKwargs [("n_fold", PyVal.nat 7)]) =
      some (PyVal.skf (PyVal.nat 7) true (PyVal.nat 42)) ∧
    List.lookup "n_fold"
        (LogisticRegressionPropensityModel.modelKwargs [("n_fold", PyVal.nat 7)]) =
      none := by
  have h := lr_modelKwargs_n_fold [("n_fold", PyVal.nat 7)] (by rfl)
  exact ⟨rfl, h.1, h.2.1⟩

/-!  ## PAVA lemmas: the fitted values are monotone -/

theorem pavaStep_chain' {s : List Block} (b : Block)
    (h : s.Chain' (fun a c => c.mean ≤ a.mean)) :
    (pavaStep s b).Chain' (fun a c => c.mean ≤ a.mean) := by
  induction s generalizing b with
  | nil => simp [pavaStep]
  | cons top rest ih =>
      simp only [pavaStep]
      split
      · exact ih _ h.tail
      · exact List.chain'_cons.mpr ⟨le_of_not_lt (by assumption), h⟩

theorem pavaStep_npos {s : List Block} {b : Block} (hs : ∀ x ∈ s, 0 < x.n)
    (hb : 0 < b.n) : ∀ x ∈ pavaStep s b, 0 < x.n := by
  induction s generalizing b with
  | nil => simpa [pavaStep] using hb
  | cons top rest ih =>
      simp only [pavaStep]
      split
      · refine ih (fun x hx => hs x (List.mem_cons_of_mem _ hx)) ?_
        have := hs top (List.mem_cons_self _ _)
        simp only [Block.merge]
        omega
      · intro x hx
        rcases List.mem_cons.mp hx with rfl | hx2
        · exact hb
        · exact hs x hx2

theorem pavaStep_nsum (s : List Block) (b : Block) :
    nsum (pavaStep s b) = nsum s + b.n := by
  induction s generalizing b with
  | nil => simp [pavaStep, nsum]
  | cons top rest ih =>
      simp only [pavaStep]
      split
      · rw [ih]
        simp only [nsum, List.map_cons, List.sum_cons, Block.merge]
        omega
      · simp only [nsum, List.map_cons, List.sum_cons]
        omega

theorem pavaRun_start_chain' (bs : List Block) :
    ∀ s, s.Chain' (fun a c => c.mean ≤ a.mean) →
      (bs.foldl pavaStep s).Chain' (fun a c => c.mean ≤ a.mean) := by
  induction bs with
  | nil => exact fun s h => h
  | cons b rest ih => exact fun s h => ih _ (pavaStep_chain' b h)

theorem pavaRun_chain' (bs : List Block) :
    (pavaRun bs).Chain' (fun a c => c.mean ≤ a.mean) :=
  pavaRun_start_chain' bs [] List.chain'_nil

theorem pavaRun_start_npos (bs : List Block) (hbs : ∀ b ∈ bs, 0 < b.n) :
    ∀ s, (∀ x ∈ s, 0 < x.n) → ∀ x ∈ bs.foldl pavaStep s, 0 < x.n := by
  induction bs with
  | nil => exact fun s hsn => hsn
  | cons b rest ih =>
      intro s hsn
      exact ih (fun c hc => hbs c (List.mem_cons_of_mem _ hc)) _
        (pavaStep_npos hsn (hbs b (List.mem_cons_self _ _)))

theorem pavaRun_npos {bs : List Block} (hbs : ∀ b ∈ bs, 0 < b.n) :
    ∀ x ∈ pavaRun bs, 0 < x.n :=
  pavaRun_start_npos bs hbs [] (by simp)

theorem pavaRun_start_nsum (bs : List Block) :
    ∀ s, nsum (bs.foldl pavaStep s) = nsum s + nsum bs := by
  induction bs with
  | nil => intro s; simp [nsum]
  | cons b rest ih =>
      intro s
      rw [List.foldl_cons, ih, pavaStep_nsum]
      simp only [nsum, List.map_cons, List.sum_cons]
      omega

theorem pavaRun_nsum (bs : List Block) : nsum (pavaRun bs) = nsum bs := by
  have := pavaRun_start_nsum bs []
  simpa [pavaRun, nsum] using this

theorem expandStack_cons (b : Block) (s : List Block) :
    expandStack (b :: s) = expandStack s ++ List.replicate b.n b.mean := by
  simp [expandStack]

theorem length_expandStack (s : List Block) :
    (expandStack s).length = nsum s := by
  induction s with
  | nil => simp [expandStack, nsum]
  | cons b t ih =>
      rw [expandStack_cons, List.length_append, ih]
      simp only [nsum, List.map_cons, List.sum_cons, List.length_replicate]
      omega

theorem getLast?_expandStack {b : Block} (s : List Block) (hb : 0 < b.n) :
    (expandStack (b :: s)).getLast? = some b.mean := by
  rw [expandStack_cons, List.getLast?_append]
  have hrep : (List.replicate b.n b.mean).getLast? = some b.mean := by
    rw [List.getLast?_eq_head?_reverse, List.reverse_replicate, List.head?_replicate]
    simp [Nat.pos_iff_ne_zero.mp hb]
  rw [hrep]
  rfl

theorem chain'_expandStack {s : List Block}
    (hchain : s.Chain' (fun a c => c.mean ≤ a.mean))
    (hpos : ∀ x ∈ s, 0 < x.n) : (expandStack s).Chain' (· ≤ ·) := by
  induction s with
  | nil => simp [expandStack]
  | cons b t ih =>
      rw [expandStack_cons, List.chain'_append]
      refine ⟨ih hchain.tail (fun x hx => hpos x (List.mem_cons_of_mem _ hx)),
        List.chain'_replicate_of_rel _ le_rfl, ?_⟩
      intro x hx y hy
      cases t with
      | nil => simp [expandStack] at hx
      | cons c t2 =>
          rw [getLast?_expandStack t2 (hpos c (List.mem_cons_of_mem _
            (List.mem_cons_self _ _)))] at hx
          have hx2 : c.mean = x := by simpa using hx
          have hy2 : b.mean = y := by
            rw [List.head?_replicate] at hy
            rcases Nat.eq_zero_or_pos b.n with h0 | h0
            · simp [h0] at hy
            · simpa [Nat.pos_iff_ne_zero.mp h0] using hy
          rw [← hx2, ← hy2]
          exact (List.chain'_cons.mp hchain).1

/-!  ## Sorted distinct x values -/

theorem insertDistinct_head? (x : ℚ) (l : List ℚ) :
    (insertDistinct x l).head? = some x ∨ (insertDistinct x l).head? = l.head? := by
  cases l with
  | nil => left; rfl
  | cons y ys =>
      simp only [insertDistinct]
      split
      · left; rfl
      · split
        · right; rfl
        · right; rfl

theorem chain'_insertDistinct {l : List ℚ} (x : ℚ) (h : l.Chain' (· < ·)) :
    (insertDistinct x l).Chain' (· < ·) := by
  induction l with
  | nil => simp [insertDistinct]
  | cons y ys ih =>
      simp only [insertDistinct]
      split
      · exact List.chain'_cons.mpr ⟨by assumption, h⟩
      · split
        · exact h
        · refine List.chain'_cons'.mpr ⟨?_, ih h.tail⟩
          intro z hz
          rcases insertDistinct_head? x ys with hh | hh
          · rw [hh] at hz
            have hz2 : x = z := by simpa using hz
            subst hz2
            exact lt_of_le_of_ne (le_of_not_lt (by assumption))
              (Ne.symm (by assumption))
          · rw [hh] at hz
            exact (List.chain'_cons'.mp h).1 z hz

theorem self_mem_insertDistinct (x : ℚ) (l : List ℚ) : x ∈ insertDistinct x l := by
  induction l with
  | nil => simp [insertDistinct]
  | cons y ys ih =>
      by_cases h1 : x < y
      · simp [insertDistinct, h1]
      · by_cases h2 : x = y
        · simp [insertDistinct, h1, h2]
        · simp only [insertDistinct, if_neg h1, if_neg h2]
          exact List.mem_cons_of_mem _ ih

theorem mem_insertDistinct_of_mem {a x : ℚ} {l : List ℚ} (ha : a ∈ l) :
    a ∈ insertDistinct x l := by
  induction l with
  | nil => simp at ha
  | cons y ys ih =>
      by_cases h1 : x < y
      · simp only [insertDistinct, if_pos h1]
        exact List.mem_cons_of_mem _ ha
      · by_cases h2 : x = y
        · simpa [insertDistinct, h1, h2] using ha
        · simp only [insertDistinct, if_neg h1, if_neg h2]
          rcases List.mem_cons.mp ha with rfl | ha2
          · exact List.mem_cons_self _ _
          · exact List.mem_cons_of_mem _ (ih ha2)

theorem sortedXs_chain' (ps : List ℚ) : (sortedXs ps).Chain' (· < ·) := by
  induction ps with
  | nil => simp [sortedXs]
  | cons p rest ih => exact chain'_insertDistinct p ih

theorem mem_sortedXs {x : ℚ} {ps : List ℚ} (h : x ∈ ps) : x ∈ sortedXs ps := by
  induction ps with
  | nil => simp at h
  | cons p rest ih =>
      rcases List.mem_cons.mp h with rfl | h2
      · exact self_mem_insertDistinct _ _
      · exact mem_insertDistinct_of_mem (ih h2)

/-!  ## Lookup in a sorted table -/

theorem lookup_cons_self {α β : Type*} [BEq α] [LawfulBEq α] (k : α) (v : β)
    (l : List (α × β)) : List.lookup k ((k, v) :: l) = some v := by
  simp [List.lookup_cons]

theorem lookup_cons_of_ne {α β : Type*} [BEq α] [LawfulBEq α] {k k' : α}
    (h : k ≠ k') (v : β) (l : List (α × β)) :
    List.lookup k ((k', v) :: l) = List.lookup k l := by
  simp [List.lookup_cons, beq_false_of_ne h]

theorem mem_of_lookup_eq_some {α β : Type*} [BEq α] [LawfulBEq α] {k : α}
    {v : β} : ∀ {l : List (α × β)}, List.lookup k l = some v → (k, v) ∈ l := by
  intro l
  induction l with
  | nil => simp [List.lookup]
  | cons kv rest ih =>
      obtain ⟨k1, v1⟩ := kv
      by_cases h : k = k1
      · subst h
        rw [lookup_cons_self]
        intro hv
        injection hv with hv
        subst hv
        exact List.mem_cons_self _ _
      · rw [lookup_cons_of_ne h]
        exact fun hl => List.mem_cons_of_mem _ (ih hl)

theorem lookup_zip_isSome {α β : Type*} [BEq α] [LawfulBEq α] :
    ∀ {keys : List α} {vals : List β} {x : α}, x ∈ keys →
      keys.length ≤ vals.length →
      ∃ v, List.lookup x (keys.zip vals) = some v := by
  intro keys
  induction keys with
  | nil => simp
  | cons k0 kt ih =>
      intro vals x hx hlen
      cases vals with
      | nil => simp at hlen
      | cons v0 vt =>
          rw [List.zip_cons_cons]
          by_cases h : x = k0
          · subst h
            exact ⟨v0, lookup_cons_self _ _ _⟩
          · have hx2 : x ∈ kt := List.mem_of_ne_of_mem h hx
            obtain ⟨v, hv⟩ := ih hx2 (by simpa using Nat.le_of_succ_le_succ hlen)
            exact ⟨v, by rw [lookup_cons_of_ne h]; exact hv⟩

theorem lookup_zip_monotone :
    ∀ {keys vals : List ℚ}, keys.Chain' (· < ·) → vals.Chain' (· ≤ ·) →
      ∀ {x y : ℚ}, x ∈ keys → y ∈ keys → x ≤ y →
      ∀ {vx vy : ℚ}, List.lookup x (keys.zip vals) = some vx →
        List.lookup y (keys.zip vals) = some vy → vx ≤ vy := by
  intro keys
  induction keys with
  | nil => intro vals _ _ x y hxk; simp at hxk
  | cons k0 kt ih =>
      intro vals hk hv x y hxk hyk hxy vx vy hvx hvy
      cases vals with
      | nil => simp [List.lookup] at hvx
      | cons v0 vt =>
          rw [List.zip_cons_cons] at hvx hvy
          by_cases hx0 : x = k0
          · by_cases hy0 : y = k0
            · subst hx0; subst hy0
              rw [lookup_cons_self] at hvx hvy
              injection hvx with hvx
              injection hvy with hvy
              subst hvx; subst hvy
              rfl
            · subst hx0
              rw [lookup_cons_self] at hvx
              injection hvx with hvx
              subst hvx
              rw [lookup_cons_of_ne hy0] at hvy
              have hmem := mem_of_lookup_eq_some hvy
              have hvyvt : vy ∈ vt := (List.of_mem_zip hmem).2
              have hp := List.chain'_iff_pairwise.mp hv
              exact (List.pairwise_cons.mp hp).1 vy hvyvt
          · have hxkt : x ∈ kt := List.mem_of_ne_of_mem hx0 hxk
            by_cases hy0 : y = k0
            · subst hy0
              have hp := List.chain'_iff_pairwise.mp hk
              have hlt : y < x := (List.pairwise_cons.mp hp).1 x hxkt
              exact absurd hxy (not_le.mpr hlt)
            · have hykt : y ∈ kt := List.mem_of_ne_of_mem hy0 hyk
              rw [lookup_cons_of_ne hx0] at hvx
              rw [lookup_cons_of_ne hy0] at hvy
              exact ih hk.tail hv.tail hxkt hykt hxy hvx hvy

/-!  ## The fitted isotonic table: bounds and monotonicity -/

theorem npClip_mono {lo hi x y : ℚ} (h : x ≤ y) :
    npClip lo hi x ≤ npClip lo hi y :=
  min_le_min (max_le_max h le_rfl) le_rfl

theorem twoEps_le : twoEps ≤ 1 - twoEps := by norm_num [twoEps, eps]

theorem nsum_groupBlocks (pairs : List (ℚ × ℚ)) (xs : List ℚ) :
    nsum (xs.map (groupBlock pairs)) = xs.length := by
  induction xs with
  | nil => rfl
  | cons x xt ih =>
      have hn : (groupBlock pairs x).n = 1 := rfl
      simp only [List.map_cons, nsum, List.sum_cons, List.length_cons, hn] at ih ⊢
      omega

theorem isoFitted_length (ps ts : List ℚ) :
    ((expandStack (pavaRun ((sortedXs ps).map (groupBlock (ps.zip ts))))).map
      (npClip twoEps (1 - twoEps))).length = (sortedXs ps).length := by
  rw [List.length_map, length_expandStack, pavaRun_nsum, nsum_groupBlocks]

theorem isoFitted_chain' (ps ts : List ℚ) :
    ((expandStack (pavaRun ((sortedXs ps).map (groupBlock (ps.zip ts))))).map
      (npClip twoEps (1 - twoEps))).Chain' (· ≤ ·) := by
  refine List.chain'_map_of_chain' _ (fun a b hab => npClip_mono hab) ?_
  refine chain'_expandStack (pavaRun_chain' _) (pavaRun_npos ?_)
  intro b hb
  obtain ⟨x, -, rfl⟩ := List.mem_map.mp hb
  exact Nat.one_pos

theorem isotonicFitted_lookup {ps : List ℚ} (ts : List ℚ) {x : ℚ}
    (hx : x ∈ ps) :
    ∃ v, List.lookup x (isotonicFitted ps ts) = some v ∧
      twoEps ≤ v ∧ v ≤ 1 - twoEps := by
  simp only [isotonicFitted]
  obtain ⟨v, hv⟩ := lookup_zip_isSome (mem_sortedXs hx)
    (le_of_eq (isoFitted_length ps ts).symm)
  refine ⟨v, hv, ?_⟩
  have hmem := mem_of_lookup_eq_some hv
  have hvin := (List.of_mem_zip hmem).2
  obtain ⟨w, -, rfl⟩ := List.mem_map.mp hvin
  exact npClip_mem_Icc twoEps_le w

theorem isotonicFitted_monotone {ps ts : List ℚ} {x y : ℚ} (hx : x ∈ ps)
    (hy : y ∈ ps) (hxy : x ≤ y) {vx vy : ℚ}
    (hvx : List.lookup x (isotonicFitted ps ts) = some vx)
    (hvy : List.lookup y (isotonicFitted ps ts) = some vy) : vx ≤ vy := by
  simp only [isotonicFitted] at hvx hvy
  exact lookup_zip_monotone (sortedXs_chain' ps) (isoFitted_chain' ps ts)
    (mem_sortedXs hx) (mem_sortedXs hy) hxy hvx hvy

/-- C5: for every score vector and binary treatment vector of equal length,
every value of `calibrate(ps, treatment)` lies in `[2ε, 1-2ε]`, and the
output is a non-decreasing function of the input score: `ps[i] ≤ ps[j]`
implies the output at `i` is at most the output at `j`. -/
theorem calibrate_bounds_monotone (ps ts : List ℚ)
    (hlen : ts.length = ps.length) :
    (∀ v ∈ calibrate ps ts, twoEps ≤ v ∧ v ≤ 1 - twoEps) ∧
    ∀ i j : Fin ps.length, ps.get i ≤ ps.get j →
      (calibrate ps ts).get (Fin.cast (by simp [calibrate]) i) ≤
        (calibrate ps ts).get (Fin.cast (by simp [calibrate]) j) := by
  have hval : ∀ (h : ps.length = (calibrate ps ts).length) (k : Fin ps.length),
      (calibrate ps ts).get (Fin.cast h k) =
        (List.lookup (ps.get k) (isotonicFitted ps ts)).getD 0 := by
    intro h k
    simp [calibrate, List.get_eq_getElem, List.getElem_map, Fin.coe_cast]
  constructor
  · intro v hv
    simp only [calibrate, List.mem_map] at hv
    obtain ⟨x, hx, rfl⟩ := hv
    obtain ⟨w, hw, hwb⟩ := isotonicFitted_lookup ts hx
    rw [hw, Option.getD_some]
    exact hwb
  · intro i j hij
    rw [hval _ i, hval _ j]
    obtain ⟨vx, hvx, -⟩ := isotonicFitted_lookup ts (List.get_mem ps i.1 i.2)
    obtain ⟨vy, hvy, -⟩ := isotonicFitted_lookup ts (List.get_mem ps j.1 j.2)
    rw [hvx, hvy, Option.getD_some, Option.getD_some]
    exact isotonicFitted_monotone (List.get_mem ps i.1 i.2)
      (List.get_mem ps j.1 j.2) hij hvx hvy

/-- Witness for C5 at a concrete input. -/
theorem calibrate_bounds_monotone_witness :
    ([1, 0] : List ℚ).length = ([1 / 2, 1 / 4] : List ℚ).length ∧
    ∀ v ∈ calibrate [1 / 2, 1 / 4] [1, 0], twoEps ≤ v ∧ v ≤ 1 - twoEps :=
  ⟨rfl, (calibrate_bounds_monotone [1 / 2, 1 / 4] [1, 0] rfl).1⟩

end Propensity
